import Mathlib

/-!
Verification of the heart-rate analysis core (`heartbeat/__init__.py`).

Signals are embedded as `List ℚ` (IEEE doubles are modelled by exact
rationals), peak index lists as `List ℕ`.  Python exceptions that the
claims talk about are modelled with the `PyErr` type and `Except`.

Wherever the source compares or minimises `np.std(...)` (a square root),
the embedding works with the population *variance* instead and squares
the constants: `std > 0.1` becomes `var > (1/10)^2`, and an argmin by
`std` is an argmin by `var`, because `Real.sqrt` is strictly monotone on
nonnegative inputs.  `np.inf` (the `rrsd` of an empty RR list) is the
top element `⊤` of `WithTop ℚ`.
-/

set_option maxRecDepth 2000000
set_option maxHeartbeats 4000000

/-- Python exception kinds reachable in the embedded fragment. -/
inductive PyErr where
  | valueError
  | zeroDivisionError
  deriving Repr, DecidableEq

/-- Sum-over-length mean, `np.mean`.  The empty list (whose numpy mean is
NaN) is given the junk value `0`; every use below is guarded to nonempty
lists by the theorems' hypotheses. -/
def listMean (l : List ℚ) : ℚ := l.sum / l.length

/-- Insert into an ascending list, keeping it ascending. -/
def insertAsc (x : ℚ) : List ℚ → List ℚ
  | [] => [x]
  | y :: ys => if x ≤ y then x :: y :: ys else y :: insertAsc x ys

/-- Ascending insertion sort, used to embed `np.median`. -/
def sortAsc (l : List ℚ) : List ℚ := l.foldr insertAsc []

/-- Embeds `np.median`: sort ascending; odd length takes the middle element, even
length averages the two middle elements.  (Empty input, NaN in numpy, is
given the junk value `0`; all uses are guarded.) -/
def listMedian (l : List ℚ) : ℚ :=
  let s := sortAsc l
  if l.length % 2 = 1 then s.getD (l.length / 2) 0
  else (s.getD (l.length / 2 - 1) 0 + s.getD (l.length / 2) 0) / 2

/-- Embeds `MAD(data)` from the source: median absolute deviation. -/
def MAD (data : List ℚ) : ℚ :=
  let med := listMedian data
  listMedian (data.map (fun x => |x - med|))

/-- Embeds `scale_data(data)` (source lines 67-76): linear rescale onto
`[0, 1024]` via `1024 * (x - min) / (max - min)`. -/
def scale_data (data : List ℚ) : List ℚ :=
  let maximum := data.foldr max (data.headD 0)
  let minimum := data.foldr min (data.headD 0)
  data.map (fun x => 1024 * ((x - minimum) / (maximum - minimum)))

/-- Embeds `enhance_peaks(hrdata, iterations)` (source lines 78-90).  The call
`scale_data(hrdata)` on line 86 does not bind its result and `scale_data`
is pure, so it has no effect on the returned value; the loop body squares
elementwise and rescales, `iterations` times. -/
def enhance_peaks (hrdata : List ℚ) (iterations : ℕ) : List ℚ :=
  (fun d => scale_data (d.map (fun x => x * x)))^[iterations] hrdata

/-- The index list of `np.where(hrdata > threshold)[0]` (source line 103). -/
def clip_binary (hrdata : List ℚ) (threshold : ℚ) : List ℕ :=
  (hrdata.enum.filter (fun p => threshold < p.2)).map (fun p => p.1)

/-- Positions `j` with `indices[j+1] - indices[j] > 1`, i.e.
`np.where(np.diff(clip_binary) > 1)[1]` (source line 104). -/
def gapPositions (indices : List ℕ) : List ℕ :=
  ((indices.zip indices.tail).enum.filter
    (fun p => p.2.1 + 1 < p.2.2)).map (fun p => p.1)

/-- Embeds `mark_clipping(hrdata, threshold)` (source lines 92-120).  The loop
runs `i` over `range(len(clipping_edges))`; the source's
`elif i == len(clipping_edges)` branch (lines 112-115, meant to append
the final segment) is kept verbatim here even though its test can never
succeed for `i < len(clipping_edges)`. -/
def mark_clipping (hrdata : List ℚ) (threshold : ℚ) : List (ℕ × ℕ) :=
  let cb := clip_binary hrdata threshold
  let edges := gapPositions cb
  (List.range edges.length).map (fun i =>
    if i = 0 then
      (cb.getD 0 0, cb.getD (edges.getD 0 0) 0)
    else if i = edges.length then
      (cb.getD (edges.getD i 0 + 1) 0, cb.getD (cb.length - 1) 0)
    else
      (cb.getD (edges.getD (i - 1) 0 + 1) 0, cb.getD (edges.getD i 0) 0))

/-- Embeds `raw_to_ecg(hrdata, enhancepeaks)` (source lines 164-175): flips the
signal about its mean, `(mean - x) + mean` elementwise, optionally
followed by `enhance_peaks` with its default 2 iterations. -/
def raw_to_ecg (hrdata : List ℚ) (enhancepeaks : Bool) : List ℚ :=
  let hrmean := listMean hrdata
  let flipped := hrdata.map (fun x => (hrmean - x) + hrmean)
  if enhancepeaks then enhance_peaks flipped 2 else flipped

/-- The list of window means `np.mean(rollwindow(data, w), axis=1)`
(source lines 202-211, 223): means of the `len - w + 1` size-`w`
windows of the valid convolution. -/
def rollwindowMeans (data : List ℚ) (w : ℕ) : List ℚ :=
  (List.range (data.length - w + 1)).map (fun i => listMean ((data.drop i).take w))

/-- Embeds `rolmean(data, windowsize, sample_rate)` with the window already
converted to a sample count `w = int(windowsize * sample_rate)`
(source lines 213-234): pad the valid-convolution means with
`(w - 1) / 2` copies of the global mean on each end, then append one
trailing zero if the result is shorter than the data, or drop the last
sample if it is longer. -/
def rolmeanW (data : List ℚ) (w : ℕ) : List ℚ :=
  let avg_hr := listMean data
  let rol := rollwindowMeans data w
  let missing_vals := List.replicate ((w - 1) / 2) avg_hr
  let padded := missing_vals ++ rol ++ missing_vals
  if padded.length = data.length then padded
  else if padded.length < data.length then padded ++ [0]
  else padded.dropLast

/-- Embeds `rolmean` with the source's own signature; `int(windowsize *
sample_rate)` truncates toward zero, which for the nonnegative products
in scope is the floor (negative values clamp to `0`, as `Int.toNat`
does). -/
def rolmean (data : List ℚ) (windowsize sample_rate : ℚ) : List ℚ :=
  rolmeanW data (Int.toNat ⌊windowsize * sample_rate⌋)

/-- One pass of the `hampelfilt` loop body (source lines 297-302) at
index `i`: the slice `output[i - onesided : i + onesided]` is taken from
the current (partially rewritten) output; `output[i]` is replaced by the
slice's median when it exceeds `median + 3 * MAD`.  An empty slice gives
numpy medians of NaN and the comparison with NaN is `False`, so nothing
changes; the guard makes that case explicit. -/
def hampelStep (onesided : ℕ) (output : List ℚ) (i : ℕ) : List ℚ :=
  let dataslice := (output.drop (i - onesided)).take (2 * onesided)
  if dataslice = [] then output
  else if listMedian dataslice + 3 * MAD dataslice < output.getD i 0 then
    output.set i (listMedian dataslice)
  else output

/-- Embeds `hampelfilt(data, filtsize)` (source lines 282-303): the loop runs
`i` over `range(onesided, len(data) - onesided - 1)` where
`onesided = filtsize // 2`, updating the output list in place. -/
def hampelfilt (data : List ℚ) (filtsize : ℕ) : List ℚ :=
  let onesided := filtsize / 2
  (List.range' onesided (data.length - onesided - 1 - onesided)).foldl
    (hampelStep onesided) data

/-- The `upper_threshold` of `check_peaks` (source line 387). -/
def upperThreshold (rr : List ℚ) : ℚ :=
  let mean_rr := listMean rr
  if 3 / 10 * mean_rr ≤ 300 then mean_rr + 300 else mean_rr + 3 / 10 * mean_rr

/-- The `lower_threshold` of `check_peaks` (source line 388). -/
def lowerThreshold (rr : List ℚ) : ℚ :=
  let mean_rr := listMean rr
  if 3 / 10 * mean_rr ≤ 300 then mean_rr - 300 else mean_rr - 3 / 10 * mean_rr

/-- Result record of `check_peaks`. -/
structure CheckResult where
  peaklist_cor : List ℕ
  removed_beats : List ℕ
  removed_beats_y : List ℚ
  binary_peaklist : List ℕ
  deriving Repr, DecidableEq

/-- RR-pair positions `i` with `rr[i] <= lower or rr[i] >= upper`, i.e.
`np.where((rr_arr <= lower_threshold) | (rr_arr >= upper_threshold))[0]`
(source lines 393-396). -/
def removedPositions (rr : List ℚ) : List ℕ :=
  (List.range rr.length).filter
    (fun i => rr.getD i 0 ≤ lowerThreshold rr ∨ upperThreshold rr ≤ rr.getD i 0)

/-- RR-pair positions kept, `np.where((rr_arr > lower) & (rr_arr < upper))`
(source lines 390-391). -/
def keptPositions (rr : List ℚ) : List ℕ :=
  (List.range rr.length).filter
    (fun i => lowerThreshold rr < rr.getD i 0 ∧ rr.getD i 0 < upperThreshold rr)

/-- Embeds `check_peaks` (source lines 381-398), as a function of the working
data it reads: the RR list, the peak index list and the peak amplitudes.
The binary mask marks `0` for peak values occurring in `removed_beats`
(the Python membership test `x in working_data['removed_beats']`). -/
def check_peaks (rr : List ℚ) (peaklist : List ℕ) (ybeat : List ℚ) : CheckResult :=
  let removed := (removedPositions rr).map (fun i => peaklist.getD (i + 1) 0)
  { peaklist_cor := peaklist.getD 0 0 :: (keptPositions rr).map (fun i => peaklist.getD (i + 1) 0)
    removed_beats := removed
    removed_beats_y := (removedPositions rr).map (fun i => ybeat.getD (i + 1) 0)
    binary_peaklist := peaklist.map (fun x => if x ∈ removed then 0 else 1) }

/-- Embeds `np.bincount(window)[0]`: the number of zeros in the window (source
line 416). -/
def countZeros (l : List ℕ) : ℕ := (l.filter (fun x => x = 0)).length

/-- The slice assignment `binary_peaklist[idx:idx+10] = [0, ...]`
(source line 417): zero out the (up to) 10 entries starting at `idx`. -/
def zeroWindow (l : List ℕ) (idx : ℕ) : List ℕ :=
  l.take idx ++ List.replicate ((l.drop idx).take 10).length 0 ++ l.drop (idx + 10)

/-- State of the `check_binary_quality` loop: the (mutated) binary mask
and the accumulated `rejected_segments`. -/
structure BQState where
  mask : List ℕ
  segments : List (ℕ × ℕ)
  deriving Repr, DecidableEq

/-- One iteration of the `check_binary_quality` loop (source lines
415-422) for the window starting at `idx = 10 * k`. -/
def bqStep (peaklist : List ℕ) (maxrejects : ℕ) (st : BQState) (k : ℕ) : BQState :=
  let idx := 10 * k
  let window := (st.mask.drop idx).take 10
  if maxrejects < countZeros window then
    { mask := zeroWindow st.mask idx
      segments := st.segments ++
        [if idx + 10 < peaklist.length then
            (peaklist.getD idx 0, peaklist.getD (idx + 10) 0)
          else
            (peaklist.getD idx 0, peaklist.getD (peaklist.length - 1) 0)] }
  else st

/-- Embeds `check_binary_quality(binary_peaklist, maxrejects)` (source lines
403-422): scans `int(len(binary_peaklist) / 10)` consecutive 10-beat
windows, zeroing any window with more than `maxrejects` zeros and
recording its peak-coordinate span. -/
def check_binary_quality (binary_peaklist : List ℕ) (peaklist : List ℕ)
    (maxrejects : ℕ) : BQState :=
  (List.range (binary_peaklist.length / 10)).foldl
    (bqStep peaklist maxrejects) ⟨binary_peaklist, []⟩

/-- Time-series measures record (source lines 470-492).  `sdnn`, `sdsd`
and `rmssd` are square roots in the source; the record stores their
squares (`np.std` squared is the population variance, `rmssd` squared is
the mean of `rr_sqdiff`), which determine them uniquely. -/
structure TSMeasures where
  bpm : ℚ
  ibi : ℚ
  sdnnSq : ℚ
  sdsdSq : ℚ
  rmssdSq : ℚ
  nn20 : List ℚ
  nn50 : List ℚ
  pnn20 : ℚ
  pnn50 : ℚ
  hr_mad : ℚ
  deriving Repr, DecidableEq

/-- Population variance `np.std(l) ** 2`. -/
def listVar (l : List ℚ) : ℚ :=
  let m := listMean l
  listMean (l.map (fun x => (x - m) * (x - m)))

/-- Embeds `calc_ts_measures()` (source lines 470-492) as a function of the
working data it reads.  `float(len(nn20)) / float(len(rr_diff))` raises
`ZeroDivisionError` in Python when `rr_diff` is empty, which the
`Except` models; the measures assigned before that line are lost with
the raised exception. -/
def calc_ts_measures (rr_list rr_diff rr_sqdiff : List ℚ) : Except PyErr TSMeasures :=
  let nn20 := rr_diff.filter (fun x => 20 < x)
  let nn50 := rr_diff.filter (fun x => 50 < x)
  if rr_diff.length = 0 then .error .zeroDivisionError
  else .ok
    { bpm := 60000 / listMean rr_list
      ibi := listMean rr_list
      sdnnSq := listVar rr_list
      sdsdSq := listVar rr_diff
      rmssdSq := listMean rr_sqdiff
      nn20 := nn20
      nn50 := nn50
      pnn20 := (nn20.length : ℚ) / (rr_diff.length : ℚ)
      pnn50 := (nn50.length : ℚ) / (rr_diff.length : ℚ)
      hr_mad := MAD rr_list }

/-- The fixed candidate list of baseline-raise percentages
(source line 365). -/
def ma_perc_list : List ℚ :=
  [5, 10, 15, 20, 25, 30, 40, 50, 60, 70, 80, 90, 100, 110, 120, 150, 200, 300]

/-- The raised rolling mean `rmean + (rmean / 100) * ma_perc`
(source line 326). -/
def raisedMean (rol_mean : List ℚ) (ma_perc : ℚ) : List ℚ :=
  rol_mean.map (fun r => r + r / 100 * ma_perc)

/-- Embeds `np.where(hrdata > rol_mean)[0]` over the raised mean
(source line 327). -/
def peaksxList (hrdata raised : List ℚ) : List ℕ :=
  ((hrdata.zip raised).enum.filter (fun p => p.2.2 < p.2.1)).map (fun p => p.1)

/-- Python `max(l)` over a nonempty list (junk `0` on empty; guarded). -/
def listMax (l : List ℚ) : ℚ := l.foldr max (l.headD 0)

/-- Python `l.index(max(l))`: position of the first occurrence of the
maximum (source line 337). -/
def pyIndexOfMax (l : List ℚ) : ℕ := l.findIdx (fun x => decide (x = listMax l))

/-- The grouping loop of `detect_peaks` (source lines 329-339):
`peakedges = [0] ++ gap positions of diff(peaksx) ++ [len(peaksx)]`, and
segment `i` spans slice positions `[peakedges[i], peakedges[i+1])`.  An
empty slice makes `max` raise; the bare `except: pass` skips it, which
`filterMap`'s `none` branch models. -/
def detectSegments (peaksx : List ℕ) (peaksy : List ℚ) : List ℕ :=
  let edges := 0 :: (gapPositions peaksx ++ [peaksx.length])
  (List.range (edges.length - 1)).filterMap (fun i =>
    let a := edges.getD i 0
    let b := edges.getD (i + 1) 0
    let ys := (peaksy.drop a).take (b - a)
    if ys = [] then none
    else some (peaksx.getD (a + pyIndexOfMax ys) 0))

/-- The peak list produced by `detect_peaks` before `calc_rr` runs
(source lines 325-339). -/
def detectPeaklistRaw (hrdata rol_mean : List ℚ) (ma_perc : ℚ) : List ℕ :=
  let px := peaksxList hrdata (raisedMean rol_mean ma_perc)
  detectSegments px (px.map (fun i => hrdata.getD i 0))

/-- The first-peak drop of `calc_rr` (source lines 437-441): the first
peak is deleted when its index is within 150 ms of the signal start. -/
def calcRRPeaklist (peaklist : List ℕ) (sample_rate : ℚ) : List ℕ :=
  match peaklist with
  | [] => []
  | p :: ps => if (p : ℚ) ≤ sample_rate / 1000 * 150 then ps else p :: ps

/-- Embeds `RR_list = (np.diff(peaklist) / sample_rate) * 1000` (source
line 443). -/
def rrListOf (peaklist : List ℕ) (sample_rate : ℚ) : List ℚ :=
  (peaklist.zip peaklist.tail).map (fun q => ((q.2 : ℚ) - (q.1 : ℚ)) / sample_rate * 1000)

/-- Embeds `working_data['rrsd']` squared (source lines 346-349): the variance
of the RR list, or `⊤` (numpy `inf`) when the RR list is empty. -/
def rrsdSqOf (rr : List ℚ) : WithTop ℚ :=
  if rr = [] then ⊤ else (listVar rr : WithTop ℚ)

/-- The working data written by one `detect_peaks(...)` call with
`update_dict=True` followed by its internal `calc_rr` (source lines
341-349, 425-448). -/
structure DetectState where
  peaklist : List ℕ
  ybeat : List ℚ
  rr_list : List ℚ
  rrsdSq : WithTop ℚ
  deriving DecidableEq

/-- Embeds `detect_peaks(hrdata, rol_mean, ma_perc, sample_rate)` with
`update_dict=True` (source lines 312-349): computes the peak list,
applies `calc_rr`'s first-peak drop, and derives the RR list and its
(squared) standard deviation. -/
def detect_peaks (hrdata rol_mean : List ℚ) (ma_perc sample_rate : ℚ) : DetectState :=
  let pk := calcRRPeaklist (detectPeaklistRaw hrdata rol_mean ma_perc) sample_rate
  let rr := rrListOf pk sample_rate
  { peaklist := pk
    ybeat := pk.map (fun i => hrdata.getD i 0)
    rr_list := rr
    rrsdSq := rrsdSqOf rr }

/-- Embeds `bpm = (len(peaklist) / (len(hrdata) / sample_rate)) * 60`
(source line 370). -/
def bpmOf (hrdata : List ℚ) (sample_rate : ℚ) (npeaks : ℕ) : ℚ :=
  ((npeaks : ℚ) / ((hrdata.length : ℚ) / sample_rate)) * 60

/-- The scan list `rrsd` built by the first `fit_peaks` loop (source
lines 366-371): one `(rrsd², bpm, ma_perc)` triple per candidate. -/
def rrsdEntries (hrdata rol_mean : List ℚ) (sample_rate : ℚ) :
    List (WithTop ℚ × ℚ × ℚ) :=
  ma_perc_list.map (fun p =>
    let st := detect_peaks hrdata rol_mean p sample_rate
    (st.rrsdSq, bpmOf hrdata sample_rate st.peaklist.length, p))

/-- The filter of the second `fit_peaks` loop (source lines 373-375):
keep `(rrsd², ma_perc)` for candidates with `rrsd > 0.1` (squared:
`rrsd² > (1/10)²`, with `inf` qualifying) and `bpmmin ≤ bpm ≤ bpmmax`. -/
def valid_ma (hrdata rol_mean : List ℚ) (sample_rate bpmmin bpmmax : ℚ) :
    List (WithTop ℚ × ℚ) :=
  ((rrsdEntries hrdata rol_mean sample_rate).filter
    (fun t => ((1 / 100 : ℚ) : WithTop ℚ) < t.1 ∧ bpmmin ≤ t.2.1 ∧ t.2.1 ≤ bpmmax)).map
    (fun t => (t.1, t.2.2))

/-- Python `min(l, key=key)`: `none` on the empty list (where Python
raises `ValueError`), otherwise the first element attaining the minimal
key (Python's `min` replaces the running best only on strict
decrease). -/
def pyMinBy {α β : Type} (key : α → β) [LT β]
    [DecidableRel (LT.lt : β → β → Prop)] : List α → Option α
  | [] => none
  | x :: xs => some (xs.foldl (fun acc y => if key y < key acc then y else acc) x)

/-- Embeds `fit_peaks(hrdata, rol_mean, sample_rate, bpmmin, bpmmax)` (source
lines 353-379).  On an empty `valid_ma`, line 378's `min` raises an
(untyped) `ValueError`; otherwise the winning percentage is stored in
`working_data['best']` and `detect_peaks` is re-run with it, giving the
returned state. -/
def fit_peaks (hrdata rol_mean : List ℚ) (sample_rate bpmmin bpmmax : ℚ) :
    Except PyErr (ℚ × DetectState) :=
  match pyMinBy Prod.fst (valid_ma hrdata rol_mean sample_rate bpmmin bpmmax) with
  | none => .error .valueError
  | some t => .ok (t.2, detect_peaks hrdata rol_mean t.2 sample_rate)


/-- Sum of the mean-flip image of a list. -/
lemma sum_map_flip (l : List ℚ) (a : ℚ) :
    (l.map (fun x => (a - x) + a)).sum = 2 * a * l.length - l.sum := by
  induction l with
  | nil => simp
  | cons x xs ih =>
    simp only [List.map_cons, List.sum_cons, ih, List.length_cons]
    push_cast
    ring

/-- The mean-flip preserves the mean of a nonempty list. -/
lemma listMean_flip (l : List ℚ) (h : l ≠ []) :
    listMean (l.map (fun x => (listMean l - x) + listMean l)) = listMean l := by
  have hn : (l.length : ℚ) ≠ 0 := by
    exact_mod_cast Nat.cast_ne_zero.mpr (List.length_pos.mpr h).ne'
  simp only [listMean, List.length_map, sum_map_flip]
  field_simp
  ring

/-- Claim C3: `enhance_peaks` with `iterations = 0` is claimed to return
the scaled signal `scale_data(x)`; in the source the `scale_data(hrdata)`
call on line 86 discards its result, so the raw input is returned
unchanged.  At the non-constant input `[0, 2]` the function returns
`[0, 2]` while the scaled signal is `[0, 1024]`; the last conjunct shows
the identity behaviour in general. -/
theorem claim_C3_enhance_peaks_returns_raw_input :
    enhance_peaks [0, 2] 0 = [0, 2] ∧ scale_data [0, 2] = [0, 1024] ∧
      ∀ x : List ℚ, enhance_peaks x 0 = x := by
  refine ⟨rfl, ?_, fun x => rfl⟩
  norm_num [scale_data]

/-- Claim C4: `mark_clipping` is claimed to return all maximal clipping
runs including the last.  The loop's final-segment branch is unreachable,
so the signal `[0, 2, 0]` with threshold `1` — exactly one clipping run,
at index 1 (first conjunct) — yields the empty list instead of `[(1, 1)]`
(second conjunct), and with two runs the last one is dropped (third
conjunct). -/
theorem claim_C4_mark_clipping_drops_last_segment :
    clip_binary [0, 2, 0] 1 = [1] ∧ mark_clipping [0, 2, 0] 1 = [] ∧
      mark_clipping [0, 2, 0, 3, 0, 4, 0] 1 = [(1, 1), (3, 3)] := by
  refine ⟨?_, ?_, ?_⟩ <;>
    norm_num [mark_clipping, clip_binary, gapPositions, List.enum, List.enumFrom,
      List.filter, List.range, List.range.loop, List.getD]

/-- Claim C7: with an empty corrected RR-difference list the source's
`float(len(nn20)) / float(len(rr_diff))` raises `ZeroDivisionError`
(a platform-level arithmetic fault) instead of reporting `pnn20`/`pnn50`
as NaN as the specification requires. -/
theorem claim_C7_calc_ts_measures_divzero :
    ∀ rr_list rr_sqdiff : List ℚ,
      calc_ts_measures rr_list [] rr_sqdiff = Except.error PyErr.zeroDivisionError :=
  fun _ _ => rfl

/-- Claim C9: with `enhancepeaks=False`, `raw_to_ecg` computes
`2 * mean(signal) - signal` elementwise, preserves the signal's mean, and
is an involution. -/
theorem claim_C9_raw_to_ecg_involution (hrdata : List ℚ) (h : hrdata ≠ []) :
    raw_to_ecg hrdata false = hrdata.map (fun x => 2 * listMean hrdata - x) ∧
      listMean (raw_to_ecg hrdata false) = listMean hrdata ∧
      raw_to_ecg (raw_to_ecg hrdata false) false = hrdata := by
  refine ⟨?_, ?_, ?_⟩
  · simp only [raw_to_ecg, if_neg Bool.false_ne_true]
    exact List.map_congr_left (fun x _ => by ring)
  · simp only [raw_to_ecg, if_neg Bool.false_ne_true]
    exact listMean_flip hrdata h
  · have hm : listMean (raw_to_ecg hrdata false) = listMean hrdata := by
      simp only [raw_to_ecg, if_neg Bool.false_ne_true]
      exact listMean_flip hrdata h
    simp only [raw_to_ecg, if_neg Bool.false_ne_true] at hm ⊢
    rw [hm, List.map_map]
    have : ∀ x ∈ hrdata,
        ((fun x => (listMean hrdata - x) + listMean hrdata) ∘
          (fun x => (listMean hrdata - x) + listMean hrdata)) x = id x := by
      intro x _
      simp only [Function.comp_apply, id_eq]
      ring
    rw [List.map_congr_left this, List.map_id]

/-- Claim C9 witness: the three conjuncts at the concrete nonempty signal
`[1, 2, 4]`. -/
theorem claim_C9_witness :
    raw_to_ecg [1, 2, 4] false = [1, 2, 4].map (fun x => 2 * listMean [1, 2, 4] - x) ∧
      listMean (raw_to_ecg [1, 2, 4] false) = listMean [1, 2, 4] ∧
      raw_to_ecg (raw_to_ecg [1, 2, 4] false) false = [1, 2, 4] :=
  claim_C9_raw_to_ecg_involution [1, 2, 4] (by decide)

/-- Length bookkeeping for `rolmeanW`: with a window of at least one
sample and at most the signal length, the padding policy (global-mean
pads of `(w-1)/2` on each side, then append a trailing zero when one
short / drop the last sample when one long) restores the signal
length. -/
lemma rolmeanW_length (data : List ℚ) (w : ℕ) (h1 : 1 ≤ w) (h2 : w ≤ data.length) :
    (rolmeanW data w).length = data.length := by
  have hrol : (rollwindowMeans data w).length = data.length - w + 1 := by
    simp [rollwindowMeans]
  unfold rolmeanW
  simp only [List.length_append, List.length_replicate, hrol, List.length_dropLast]
  split_ifs with hA hB
  · simp only [List.length_append, List.length_replicate, hrol]
    omega
  · simp only [List.length_append, List.length_replicate, hrol, List.length_cons,
      List.length_nil]
    omega
  · simp only [List.length_dropLast, List.length_append, List.length_replicate, hrol]
    omega

/-- Claim C5: for a nonempty signal and a window of
`int(windowsize * sample_rate)` samples lying between 1 and the signal
length, `rolmean` returns a baseline of exactly the signal's length,
using the source's padding policy (which `rolmeanW` embeds). -/
theorem claim_C5_rolmean_length (data : List ℚ) (windowsize sample_rate : ℚ)
    (h1 : 1 ≤ Int.toNat ⌊windowsize * sample_rate⌋)
    (h2 : Int.toNat ⌊windowsize * sample_rate⌋ ≤ data.length) :
    (rolmean data windowsize sample_rate).length = data.length :=
  rolmeanW_length data _ h1 h2

/-- Claim C5 witness: signal `[1, 2, 3]`, a 2-second window at 1 Hz
(window of 2 samples, inside `[1, 3]`), output length 3. -/
theorem claim_C5_witness :
    1 ≤ Int.toNat ⌊(2 : ℚ) * 1⌋ ∧ Int.toNat ⌊(2 : ℚ) * 1⌋ ≤ ([1, 2, 3] : List ℚ).length ∧
      (rolmean [1, 2, 3] 2 1).length = ([1, 2, 3] : List ℚ).length :=
  ⟨by norm_num, by norm_num,
    claim_C5_rolmean_length [1, 2, 3] 2 1 (by norm_num) (by norm_num)⟩

/-- A `hampelStep` at index `i` modifies no other index. -/
lemma hampelStep_getD_ne (o : ℕ) (output : List ℚ) (i j : ℕ) (h : j ≠ i) :
    (hampelStep o output i).getD j 0 = output.getD j 0 := by
  simp only [hampelStep]
  split_ifs with h1 h2
  · rfl
  · simp only [List.getD_eq_getElem?_getD, List.getElem?_set_ne (Ne.symm h)]
  · rfl

/-- A `hampelStep` preserves the output length. -/
lemma hampelStep_length (o : ℕ) (output : List ℚ) (i : ℕ) :
    (hampelStep o output i).length = output.length := by
  simp only [hampelStep]
  split_ifs <;> simp

/-- Indices never visited by the hampel loop are unchanged. -/
lemma hampelFold_getD (o : ℕ) (ks : List ℕ) :
    ∀ (output : List ℚ) (j : ℕ), j ∉ ks →
      (ks.foldl (hampelStep o) output).getD j 0 = output.getD j 0 := by
  induction ks with
  | nil => intro output j _; rfl
  | cons k ks ih =>
    intro output j hj
    rw [List.foldl_cons, ih _ j (fun hh => hj (List.mem_cons_of_mem _ hh)),
      hampelStep_getD_ne o output k j (fun hh => hj (hh ▸ List.mem_cons_self k ks))]

/-- The hampel loop preserves the output length. -/
lemma hampelFold_length (o : ℕ) (ks : List ℕ) :
    ∀ output : List ℚ, (ks.foldl (hampelStep o) output).length = output.length := by
  induction ks with
  | nil => intro output; rfl
  | cons k ks ih => intro output; rw [List.foldl_cons, ih, hampelStep_length]

/-- Claim C8 counterexample: in the signal `[0, 0, 100, 0]` with window
size 2 (half-window 1), index 2 is an interior sample whose symmetric
window is `[0, 100, 0]` (samples 1..3) and whose value 100 exceeds that
window's `median + 3 * MAD` (second conjunct), so the claim says it is
replaced by the window median 0; the source leaves the whole signal
unchanged (first conjunct) because its loop `range(onesided,
len - onesided - 1)` stops before index 2 and its window slice
`output[i - onesided : i + onesided]` is not the symmetric window. -/
theorem claim_C8_counterexample :
    hampelfilt [0, 0, 100, 0] 2 = [0, 0, 100, 0] ∧
      listMedian [0, 100, 0] + 3 * MAD [0, 100, 0] < 100 := by
  constructor
  · norm_num [hampelfilt, hampelStep, List.range', listMedian, sortAsc, insertAsc,
      MAD, List.getD]
  · norm_num [listMedian, MAD, sortAsc, insertAsc]

/-- Claim C8 (amended): `hampelfilt` scans only indices
`onesided ≤ i < len - onesided - 1` (with `onesided = filtsize // 2`),
one short of the full interior, reading the slice
`output[i - onesided : i + onesided]` of the partially updated output
and replacing `output[i]` by that slice's median exactly when it exceeds
the slice's `median + 3 * MAD`; the length is preserved and every index
outside that scan range — the edge samples and the last interior
sample — is returned unchanged. -/
theorem claim_C8_hampelfilt_frame (data : List ℚ) (filtsize : ℕ) :
    (hampelfilt data filtsize).length = data.length ∧
      ∀ i : ℕ, (i < filtsize / 2 ∨ data.length - filtsize / 2 - 1 ≤ i) →
        (hampelfilt data filtsize).getD i 0 = data.getD i 0 := by
  constructor
  · exact hampelFold_length _ _ _
  · intro i hi
    refine hampelFold_getD _ _ _ _ (fun hmem => ?_)
    rcases List.mem_range'.mp hmem with ⟨t, ht, rfl⟩
    omega

/-- Claim C8 witness: at signal `[0, 0, 100, 0]` and window size 2 the
length is preserved and index 3 (an edge sample) is unchanged. -/
theorem claim_C8_witness :
    (hampelfilt [0, 0, 100, 0] 2).length = ([0, 0, 100, 0] : List ℚ).length ∧
      (3 < 2 / 2 ∨ ([0, 0, 100, 0] : List ℚ).length - 2 / 2 - 1 ≤ 3) ∧
      (hampelfilt [0, 0, 100, 0] 2).getD 3 0 = ([0, 0, 100, 0] : List ℚ).getD 3 0 :=
  ⟨(claim_C8_hampelfilt_frame [0, 0, 100, 0] 2).1, by norm_num,
    (claim_C8_hampelfilt_frame [0, 0, 100, 0] 2).2 3 (by norm_num)⟩

/-- Membership in `removedPositions`: a valid RR position whose value is
at or below the lower threshold, or at or above the upper one. -/
lemma mem_removedPositions (rr : List ℚ) (i : ℕ) :
    i ∈ removedPositions rr ↔ i < rr.length ∧
      (rr.getD i 0 ≤ lowerThreshold rr ∨ upperThreshold rr ≤ rr.getD i 0) := by
  simp [removedPositions, List.mem_filter, List.mem_range, decide_eq_true_eq]

/-- Claim C6 counterexample: with RR list `[700, 1000, 1300]` the mean is
1000, so the thresholds are 700 and 1300.  The RR value 1300 of pair 2
lies on the boundary of the claimed closed acceptance interval (second
and third conjuncts), yet the source rejects its peak — the mask is
`[1, 0, 1, 0]`, not `[1, 0, 1, 1]` — because removal uses `<=`/`>=`
comparisons. -/
theorem claim_C6_counterexample :
    (check_peaks [700, 1000, 1300] [10, 80, 180, 310] [1, 2, 3, 4]).binary_peaklist
        = [1, 0, 1, 0] ∧
      lowerThreshold [700, 1000, 1300] ≤ 1300 ∧
      (1300 : ℚ) ≤ upperThreshold [700, 1000, 1300] := by
  refine ⟨?_, ?_, ?_⟩ <;>
    norm_num [check_peaks, removedPositions, keptPositions, upperThreshold,
      lowerThreshold, listMean, List.range, List.range.loop, List.filter, List.getD]

/-- Claim C6 (amended): for a nonempty RR series and a duplicate-free
peak list of matching length, `check_peaks` produces a binary mask of the
peak list's length whose first entry is always 1 (first peak accepted
unconditionally), and whose entry `i + 1` is 0 exactly when
`rr[i] ≤ meanRR - max(300, 0.3 * meanRR)` or
`rr[i] ≥ meanRR + max(300, 0.3 * meanRR)` — boundary values are
rejected, not accepted. -/
theorem claim_C6_check_peaks_mask (rr : List ℚ) (peaklist : List ℕ) (ybeat : List ℚ)
    (hlen : peaklist.length = rr.length + 1) (hnd : peaklist.Nodup) :
    (check_peaks rr peaklist ybeat).binary_peaklist.length = peaklist.length ∧
      (check_peaks rr peaklist ybeat).binary_peaklist.getD 0 0 = 1 ∧
      ∀ i : ℕ, i < rr.length →
        (check_peaks rr peaklist ybeat).binary_peaklist.getD (i + 1) 0 =
          if rr.getD i 0 ≤ lowerThreshold rr ∨ upperThreshold rr ≤ rr.getD i 0
          then 0 else 1 := by
  have hb : (check_peaks rr peaklist ybeat).binary_peaklist
      = peaklist.map (fun x =>
          if x ∈ (removedPositions rr).map (fun i => peaklist.getD (i + 1) 0)
          then 0 else 1) := rfl
  have hmem : ∀ j, j < peaklist.length →
      (peaklist.getD j 0 ∈ (removedPositions rr).map (fun i => peaklist.getD (i + 1) 0) ↔
        ∃ i ∈ removedPositions rr, i + 1 = j) := by
    intro j hj
    constructor
    · intro hm
      rcases List.mem_map.mp hm with ⟨i, hi, hgd⟩
      have hir : i < rr.length := ((mem_removedPositions rr i).mp hi).1
      have hi1 : i + 1 < peaklist.length := by omega
      refine ⟨i, hi, ?_⟩
      rw [List.getD_eq_getElem _ _ hi1, List.getD_eq_getElem _ _ hj] at hgd
      exact (List.Nodup.getElem_inj_iff hnd).mp hgd
    · rintro ⟨i, hi, rfl⟩
      exact List.mem_map.mpr ⟨i, hi, rfl⟩
  refine ⟨by rw [hb]; simp, ?_, ?_⟩
  · have h0 : 0 < peaklist.length := by omega
    have h0m : 0 < (peaklist.map (fun x =>
        if x ∈ (removedPositions rr).map (fun i => peaklist.getD (i + 1) 0)
        then 0 else 1)).length := by simpa using h0
    rw [hb, List.getD_eq_getElem _ _ h0m, List.getElem_map, if_neg]
    rw [← List.getD_eq_getElem peaklist 0 h0]
    intro hcon
    rcases (hmem 0 h0).mp hcon with ⟨i, _, hi0⟩
    omega
  · intro i hi
    have hi1 : i + 1 < peaklist.length := by omega
    have hi1m : i + 1 < (peaklist.map (fun x =>
        if x ∈ (removedPositions rr).map (fun i => peaklist.getD (i + 1) 0)
        then 0 else 1)).length := by simpa using hi1
    rw [hb, List.getD_eq_getElem _ _ hi1m, List.getElem_map,
      ← List.getD_eq_getElem peaklist 0 hi1]
    by_cases hp : rr.getD i 0 ≤ lowerThreshold rr ∨ upperThreshold rr ≤ rr.getD i 0
    · rw [if_pos ((hmem (i + 1) hi1).mpr
        ⟨i, (mem_removedPositions rr i).mpr ⟨hi, hp⟩, rfl⟩), if_pos hp]
    · rw [if_neg, if_neg hp]
      intro hcon
      rcases (hmem (i + 1) hi1).mp hcon with ⟨k, hk, hk1⟩
      have hkk : k = i := by omega
      exact hp (hkk ▸ ((mem_removedPositions rr k).mp hk).2)

/-- Claim C6 witness: the amended characterisation at the concrete
working data `rr = [700, 1000, 1300]`, peaks `[10, 80, 180, 310]`. -/
theorem claim_C6_witness :
    ([10, 80, 180, 310] : List ℕ).length = ([700, 1000, 1300] : List ℚ).length + 1 ∧
      ([10, 80, 180, 310] : List ℕ).Nodup ∧
      ((check_peaks [700, 1000, 1300] [10, 80, 180, 310] [1, 2, 3, 4]).binary_peaklist.length
          = ([10, 80, 180, 310] : List ℕ).length ∧
        (check_peaks [700, 1000, 1300] [10, 80, 180, 310] [1, 2, 3, 4]).binary_peaklist.getD 0 0
          = 1 ∧
        ∀ i : ℕ, i < ([700, 1000, 1300] : List ℚ).length →
          (check_peaks [700, 1000, 1300] [10, 80, 180, 310]
              [1, 2, 3, 4]).binary_peaklist.getD (i + 1) 0 =
            if ([700, 1000, 1300] : List ℚ).getD i 0 ≤ lowerThreshold [700, 1000, 1300] ∨
                upperThreshold [700, 1000, 1300] ≤ ([700, 1000, 1300] : List ℚ).getD i 0
            then 0 else 1) :=
  ⟨by decide, by decide,
    claim_C6_check_peaks_mask [700, 1000, 1300] [10, 80, 180, 310] [1, 2, 3, 4]
      (by decide) (by decide)⟩

/-- The map `zeroWindow` preserves the mask length. -/
lemma zeroWindow_length (l : List ℕ) (idx : ℕ) :
    (zeroWindow l idx).length = l.length := by
  simp only [zeroWindow, List.length_append, List.length_take, List.length_replicate,
    List.length_drop]
  omega

/-- A `bqStep` preserves the mask length. -/
lemma bqStep_mask_length (pk : List ℕ) (mr : ℕ) (st : BQState) (k : ℕ) :
    (bqStep pk mr st k).mask.length = st.mask.length := by
  simp only [bqStep]
  split_ifs <;> simp [zeroWindow_length]

/-- The `check_binary_quality` loop preserves the mask length. -/
lemma bqFold_mask_length (pk : List ℕ) (mr : ℕ) (ks : List ℕ) :
    ∀ st : BQState, ((ks.foldl (bqStep pk mr) st).mask.length = st.mask.length) := by
  induction ks with
  | nil => intro st; rfl
  | cons k ks ih => intro st; rw [List.foldl_cons, ih, bqStep_mask_length]

/-- A 10-beat window read that fits inside the prefix ignores the tail. -/
lemma window10_append (a t : List ℕ) (idx : ℕ) (h : idx + 10 ≤ a.length) :
    ((a ++ t).drop idx).take 10 = (a.drop idx).take 10 := by
  rw [List.drop_append_of_le_length (by omega),
    List.take_append_of_le_length (by simp; omega)]

/-- Zeroing a window that fits inside the prefix ignores the tail. -/
lemma zeroWindow_append (a t : List ℕ) (idx : ℕ) (h : idx + 10 ≤ a.length) :
    zeroWindow (a ++ t) idx = zeroWindow a idx ++ t := by
  unfold zeroWindow
  rw [List.take_append_of_le_length (by omega), window10_append a t idx h,
    List.drop_append_of_le_length (by omega)]
  simp [List.append_assoc]

/-- Mask-and-segments extensionality for `BQState`. -/
lemma BQState.ext2 {x y : BQState} (h1 : x.mask = y.mask)
    (h2 : x.segments = y.segments) : x = y := by
  cases x; cases y; cases h1; cases h2; rfl

/-- A `bqStep` on a window inside the prefix acts on the prefix only and
carries the tail along. -/
lemma bqStep_append (pk : List ℕ) (mr : ℕ) (a t : List ℕ) (segs : List (ℕ × ℕ))
    (k : ℕ) (h : 10 * k + 10 ≤ a.length) :
    bqStep pk mr ⟨a ++ t, segs⟩ k =
      ⟨(bqStep pk mr ⟨a, segs⟩ k).mask ++ t, (bqStep pk mr ⟨a, segs⟩ k).segments⟩ := by
  simp only [bqStep, window10_append a t (10 * k) h]
  split_ifs <;>
    first
      | rfl
      | exact BQState.ext2 (zeroWindow_append a t (10 * k) h) rfl

/-- The `check_binary_quality` loop over windows that all fit inside a
prefix: the tail rides along unchanged and the recorded segments agree
with the run on the prefix alone. -/
lemma bqFold_append (pk : List ℕ) (mr : ℕ) (ks : List ℕ) :
    ∀ (a t : List ℕ) (segs : List (ℕ × ℕ)), (∀ k ∈ ks, 10 * k + 10 ≤ a.length) →
      (ks.foldl (bqStep pk mr) ⟨a ++ t, segs⟩).mask
          = (ks.foldl (bqStep pk mr) ⟨a, segs⟩).mask ++ t ∧
        (ks.foldl (bqStep pk mr) ⟨a ++ t, segs⟩).segments
          = (ks.foldl (bqStep pk mr) ⟨a, segs⟩).segments := by
  induction ks with
  | nil => exact fun a t segs _ => ⟨rfl, rfl⟩
  | cons k ks ih =>
    intro a t segs hks
    have hk : 10 * k + 10 ≤ a.length := hks k (List.mem_cons_self k ks)
    have hlen : (bqStep pk mr ⟨a, segs⟩ k).mask.length = a.length :=
      bqStep_mask_length pk mr ⟨a, segs⟩ k
    have hks2 : ∀ k2 ∈ ks, 10 * k2 + 10 ≤ (bqStep pk mr ⟨a, segs⟩ k).mask.length := by
      rw [hlen]
      exact fun k2 h2 => hks k2 (List.mem_cons_of_mem k h2)
    have ih2 := ih (bqStep pk mr ⟨a, segs⟩ k).mask t
      (bqStep pk mr ⟨a, segs⟩ k).segments hks2
    rw [List.foldl_cons, List.foldl_cons, bqStep_append pk mr a t segs k hk]
    exact ih2

/-- Claim C10: `check_binary_quality` examines only the first
`10 * (len / 10)` mask entries.  The mask keeps its length, the trailing
partial window (everything from index `10 * (len / 10)` on) is returned
unchanged — so it is never zeroed — and the recorded rejected segments
are exactly those of a run on the full-window prefix alone, so a
trailing partial window never contributes a rejected segment no matter
how many rejected peaks it holds. -/
theorem claim_C10_check_binary_quality_frame (mask peaklist : List ℕ) (maxrejects : ℕ) :
    (check_binary_quality mask peaklist maxrejects).mask.length = mask.length ∧
      (check_binary_quality mask peaklist maxrejects).mask.drop (10 * (mask.length / 10))
        = mask.drop (10 * (mask.length / 10)) ∧
      (check_binary_quality mask peaklist maxrejects).segments
        = (check_binary_quality (mask.take (10 * (mask.length / 10)))
            peaklist maxrejects).segments := by
  have hPle : 10 * (mask.length / 10) ≤ mask.length := by omega
  have hlenA : (mask.take (10 * (mask.length / 10))).length = 10 * (mask.length / 10) := by
    simp [hPle]
  have hks : ∀ k ∈ List.range (mask.length / 10),
      10 * k + 10 ≤ (mask.take (10 * (mask.length / 10))).length := by
    intro k hk
    rw [hlenA]
    have := List.mem_range.mp hk
    omega
  have key := bqFold_append peaklist maxrejects (List.range (mask.length / 10))
    (mask.take (10 * (mask.length / 10))) (mask.drop (10 * (mask.length / 10))) [] hks
  have hsplit : mask.take (10 * (mask.length / 10)) ++ mask.drop (10 * (mask.length / 10))
      = mask := List.take_append_drop _ mask
  have hfold : check_binary_quality mask peaklist maxrejects
      = (List.range (mask.length / 10)).foldl (bqStep peaklist maxrejects)
          ⟨mask.take (10 * (mask.length / 10)) ++ mask.drop (10 * (mask.length / 10)), []⟩ := by
    unfold check_binary_quality
    rw [hsplit]
  have hfoldT : check_binary_quality (mask.take (10 * (mask.length / 10)))
        peaklist maxrejects
      = (List.range (mask.length / 10)).foldl (bqStep peaklist maxrejects)
          ⟨mask.take (10 * (mask.length / 10)), []⟩ := by
    unfold check_binary_quality
    rw [hlenA]
    have h10 : 10 * (mask.length / 10) / 10 = mask.length / 10 := by omega
    rw [h10]
  have hTlen : ((List.range (mask.length / 10)).foldl (bqStep peaklist maxrejects)
        ⟨mask.take (10 * (mask.length / 10)), []⟩).mask.length
      = 10 * (mask.length / 10) := by
    rw [bqFold_mask_length]
    exact hlenA
  refine ⟨?_, ?_, ?_⟩
  · unfold check_binary_quality
    exact bqFold_mask_length peaklist maxrejects _ _
  · rw [hfold, key.1, List.drop_left' hTlen]
  · rw [hfold, key.2, hfoldT]

/-- The running fold underlying Python `min(x :: xs, key=key)`. -/
def pyFoldMin {α β : Type} [LinearOrder β] (key : α → β) (a : α) (xs : List α) : α :=
  xs.foldl (fun acc y => if key y < key acc then y else acc) a

/-- The function `pyMinBy` on a nonempty list is the fold from its head. -/
lemma pyMinBy_cons {α β : Type} [LinearOrder β] (key : α → β) (x : α) (xs : List α) :
    pyMinBy key (x :: xs) = some (pyFoldMin key x xs) := rfl

/-- The fold result's key never exceeds the seed's key. -/
lemma pyFoldMin_le {α β : Type} [LinearOrder β] (key : α → β) (xs : List α) :
    ∀ a : α, key (pyFoldMin key a xs) ≤ key a := by
  induction xs with
  | nil => exact fun a => le_refl _
  | cons x xs ih =>
    intro a
    by_cases hc : key x < key a
    · calc key (pyFoldMin key a (x :: xs))
          = key (pyFoldMin key x xs) := by simp [pyFoldMin, hc]
        _ ≤ key x := ih x
        _ ≤ key a := le_of_lt hc
    · calc key (pyFoldMin key a (x :: xs))
          = key (pyFoldMin key a xs) := by simp [pyFoldMin, hc]
        _ ≤ key a := ih a

/-- The fold result's key is a lower bound for every scanned key. -/
lemma pyFoldMin_le_mem {α β : Type} [LinearOrder β] (key : α → β) (xs : List α) :
    ∀ (a : α), ∀ u ∈ xs, key (pyFoldMin key a xs) ≤ key u := by
  induction xs with
  | nil => intro a u hu; cases hu
  | cons x xs ih =>
    intro a u hu
    rcases List.mem_cons.mp hu with rfl | hu2
    · by_cases hc : key u < key a
      · calc key (pyFoldMin key a (u :: xs))
            = key (pyFoldMin key u xs) := by simp [pyFoldMin, hc]
          _ ≤ key u := pyFoldMin_le key xs u
      · calc key (pyFoldMin key a (u :: xs))
            = key (pyFoldMin key a xs) := by simp [pyFoldMin, hc]
          _ ≤ key a := pyFoldMin_le key xs a
          _ ≤ key u := le_of_not_lt hc
    · by_cases hc : key x < key a
      · have : pyFoldMin key a (x :: xs) = pyFoldMin key x xs := by simp [pyFoldMin, hc]
        rw [this]
        exact ih x u hu2
      · have : pyFoldMin key a (x :: xs) = pyFoldMin key a xs := by simp [pyFoldMin, hc]
        rw [this]
        exact ih a u hu2

/-- The fold result is the seed or one of the scanned elements. -/
lemma pyFoldMin_mem {α β : Type} [LinearOrder β] (key : α → β) (xs : List α) :
    ∀ a : α, pyFoldMin key a xs = a ∨ pyFoldMin key a xs ∈ xs := by
  induction xs with
  | nil => exact fun a => Or.inl rfl
  | cons x xs ih =>
    intro a
    by_cases hc : key x < key a
    · have he : pyFoldMin key a (x :: xs) = pyFoldMin key x xs := by simp [pyFoldMin, hc]
      rcases ih x with h | h
      · exact Or.inr (by rw [he, h]; exact List.mem_cons_self x xs)
      · exact Or.inr (by rw [he]; exact List.mem_cons_of_mem x h)
    · have he : pyFoldMin key a (x :: xs) = pyFoldMin key a xs := by simp [pyFoldMin, hc]
      rcases ih a with h | h
      · exact Or.inl (by rw [he, h])
      · exact Or.inr (by rw [he]; exact List.mem_cons_of_mem x h)

/-- Python's `min` keeps the first element attaining the minimal key: the
fold result is the first element of the scanned list whose key is at most
the minimum. -/
lemma pyFoldMin_first {α β : Type} [LinearOrder β] (key : α → β) (xs : List α) :
    ∀ a : α, (a :: xs).find? (fun u => decide (key u ≤ key (pyFoldMin key a xs)))
      = some (pyFoldMin key a xs) := by
  induction xs with
  | nil =>
    intro a
    simp [pyFoldMin]
  | cons x xs ih =>
    intro a
    by_cases hc : key x < key a
    · have he : pyFoldMin key a (x :: xs) = pyFoldMin key x xs := by simp [pyFoldMin, hc]
      have hlt : key (pyFoldMin key x xs) < key a := lt_of_le_of_lt (pyFoldMin_le key xs x) hc
      rw [he, List.find?_cons_of_neg _ (by simpa using not_le_of_lt hlt)]
      exact ih x
    · have he : pyFoldMin key a (x :: xs) = pyFoldMin key a xs := by simp [pyFoldMin, hc]
      rw [he]
      by_cases hpa : key a ≤ key (pyFoldMin key a xs)
      · rw [List.find?_cons_of_pos _ (by simpa using hpa)]
        have hm : pyFoldMin key a xs = a := by
          have h1 := ih a
          rw [List.find?_cons_of_pos _ (by simpa using hpa)] at h1
          exact (Option.some_inj.mp h1).symm
        rw [hm]
      · have hmlt : key (pyFoldMin key a xs) < key a := lt_of_not_le hpa
        have hx : ¬ key x ≤ key (pyFoldMin key a xs) :=
          not_le_of_lt (lt_of_lt_of_le hmlt (le_of_not_lt hc))
        rw [List.find?_cons_of_neg _ (by simpa using hpa),
          List.find?_cons_of_neg _ (by simpa using hx)]
        have h1 := ih a
        rw [List.find?_cons_of_neg _ (by simpa using hpa)] at h1
        exact h1

/-- Claim C1: on the constant signal `[0, 0, 0, 0]` with baseline
`[1, 1, 1, 1]` at 1 Hz no raise-percentage candidate passes the
`rrsd > 0.1` and `40 ≤ bpm ≤ 180` filter (every candidate detects no
peaks, so `bpm = 0`), and `fit_peaks` fails with the untyped
`ValueError` of `min` on an empty sequence — not with the typed
`NoStableThresholdError` the specification requires. -/
theorem claim_C1_fit_peaks_untyped_crash :
    valid_ma [0, 0, 0, 0] [1, 1, 1, 1] 1 40 180 = [] ∧
      fit_peaks [0, 0, 0, 0] [1, 1, 1, 1] 1 40 180 = Except.error PyErr.valueError := by
  have hv : valid_ma [0, 0, 0, 0] [1, 1, 1, 1] 1 40 180 = [] := by
    norm_num [valid_ma, rrsdEntries, ma_perc_list, detect_peaks, detectPeaklistRaw,
      detectSegments, peaksxList, raisedMean, gapPositions, pyIndexOfMax, listMax,
      calcRRPeaklist, rrListOf, rrsdSqOf, listVar, listMean, bpmOf,
      List.enum, List.enumFrom, List.filter, List.filterMap, List.replicate]
  exact ⟨hv, by simp [fit_peaks, hv, pyMinBy]⟩

/-- Claim C2: whenever at least one raise-percentage candidate passes the
stability and plausibility filter, `fit_peaks` returns (rather than
crashing) the filtered entry with minimal `rrsd` — the `find?` conjunct
states that it is the *first* entry of the filtered list attaining the
minimum, i.e. ties are broken by candidate order — and the final state is
exactly `detect_peaks` re-run with the winning percentage. -/
theorem claim_C2_fit_peaks_selection (hrdata rol_mean : List ℚ)
    (sample_rate bpmmin bpmmax : ℚ) (_hsr : 0 < sample_rate)
    (hne : valid_ma hrdata rol_mean sample_rate bpmmin bpmmax ≠ []) :
    ∃ t : WithTop ℚ × ℚ,
      t ∈ valid_ma hrdata rol_mean sample_rate bpmmin bpmmax ∧
      (∀ u ∈ valid_ma hrdata rol_mean sample_rate bpmmin bpmmax, t.1 ≤ u.1) ∧
      (valid_ma hrdata rol_mean sample_rate bpmmin bpmmax).find?
          (fun u => decide (u.1 ≤ t.1)) = some t ∧
      fit_peaks hrdata rol_mean sample_rate bpmmin bpmmax =
        Except.ok (t.2, detect_peaks hrdata rol_mean t.2 sample_rate) := by
  obtain ⟨x, xs, hcons⟩ := List.exists_cons_of_ne_nil hne
  refine ⟨pyFoldMin Prod.fst x xs, ?_, ?_, ?_, ?_⟩
  · rw [hcons]
    rcases pyFoldMin_mem Prod.fst xs x with h | h
    · rw [h]; exact List.mem_cons_self x xs
    · exact List.mem_cons_of_mem x h
  · intro u hu
    rw [hcons] at hu
    rcases List.mem_cons.mp hu with h | hu2
    · rw [h]
      exact pyFoldMin_le Prod.fst xs x
    · exact pyFoldMin_le_mem Prod.fst xs x u hu2
  · rw [hcons]
    exact pyFoldMin_first Prod.fst xs x
  · simp only [fit_peaks, hcons, pyMinBy_cons]

/-- Claim C2 witness: signal `[0, 5, 0, 5, 0, 0, 7, 0, 6, 0]` over a zero
baseline at 3 Hz.  Every candidate detects peaks `[1, 3, 6]`
(`rrsd² = 250000/9 > 1/100`, `bpm = 54 ∈ [40, 180]`), so the filtered
list is nonempty and the theorem applies. -/
theorem claim_C2_witness :
    (0 : ℚ) < 3 ∧
      valid_ma [0, 5, 0, 5, 0, 0, 7, 0, 6, 0] (List.replicate 10 0) 3 40 180 ≠ [] ∧
      (∃ t : WithTop ℚ × ℚ,
        t ∈ valid_ma [0, 5, 0, 5, 0, 0, 7, 0, 6, 0] (List.replicate 10 0) 3 40 180 ∧
        (∀ u ∈ valid_ma [0, 5, 0, 5, 0, 0, 7, 0, 6, 0] (List.replicate 10 0) 3 40 180,
          t.1 ≤ u.1) ∧
        (valid_ma [0, 5, 0, 5, 0, 0, 7, 0, 6, 0] (List.replicate 10 0) 3 40 180).find?
            (fun u => decide (u.1 ≤ t.1)) = some t ∧
        fit_peaks [0, 5, 0, 5, 0, 0, 7, 0, 6, 0] (List.replicate 10 0) 3 40 180 =
          Except.ok (t.2,
            detect_peaks [0, 5, 0, 5, 0, 0, 7, 0, 6, 0] (List.replicate 10 0) t.2 3)) :=
  ⟨by norm_num,
    by
      norm_num [valid_ma, rrsdEntries, ma_perc_list, detect_peaks, detectPeaklistRaw,
        detectSegments, peaksxList, raisedMean, gapPositions, pyIndexOfMax, listMax,
        calcRRPeaklist, rrListOf, rrsdSqOf, listVar, listMean, bpmOf,
        List.enum, List.enumFrom, List.filter_cons, List.filter_nil,
        List.filterMap, List.replicate, List.findIdx_cons, List.getD,
        decide_eq_true_eq, WithTop.coe_lt_coe, List.cons_ne_nil],
    claim_C2_fit_peaks_selection [0, 5, 0, 5, 0, 0, 7, 0, 6, 0] (List.replicate 10 0)
      3 40 180 (by norm_num)
      (by
        norm_num [valid_ma, rrsdEntries, ma_perc_list, detect_peaks, detectPeaklistRaw,
          detectSegments, peaksxList, raisedMean, gapPositions, pyIndexOfMax, listMax,
          calcRRPeaklist, rrListOf, rrsdSqOf, listVar, listMean, bpmOf,
          List.enum, List.enumFrom, List.filter_cons, List.filter_nil,
          List.filterMap, List.replicate, List.findIdx_cons, List.getD,
          decide_eq_true_eq, WithTop.coe_lt_coe, List.cons_ne_nil])⟩
